import Mathlib

/-!
Verification of the QuickReply snippet-store component.

The source is a single React component (`App`) over a `MessageSnippet`
record type.  We embed its pure core shallowly:

* `MessageSnippet` mirrors `types.ts`.
* `filteredMessages` mirrors the `useMemo` filter (lines 131-138 of the
  component): lower-case the search term once, keep the messages whose
  lowered `title`, `category` or `content` contains it.
* `jsIncludes` models JavaScript `String.prototype.includes` (substring
  test), `jsToLower` models `String.prototype.toLowerCase` as per-character
  lowering.
-/

namespace QuickReply

structure MessageSnippet where
  id : String
  category : String
  title : String
  content : String
deriving DecidableEq, Repr

/-- Substring test on character lists: `listIncl pat s` is true when `pat`
occurs contiguously inside `s` (models JavaScript `includes`). -/
def listIncl (pat : List Char) : List Char → Bool
  | [] => pat.isEmpty
  | c :: cs => pat.isPrefixOf (c :: cs) || listIncl pat cs

/-- Model of `s.includes(pat)`. -/
def jsIncludes (s pat : String) : Bool :=
  listIncl pat.data s.data

/-- Model of `s.toLowerCase()`: lower every character. -/
def jsToLower (s : String) : String :=
  ⟨s.data.map Char.toLower⟩

/-- The predicate a message must satisfy to survive the search filter:
the lowered search term is a substring of the lowered title, category or
content (in that disjunction order, as in the source). -/
def matchesTerm (searchTerm : String) (m : MessageSnippet) : Bool :=
  jsIncludes (jsToLower m.title) (jsToLower searchTerm) ||
  jsIncludes (jsToLower m.category) (jsToLower searchTerm) ||
  jsIncludes (jsToLower m.content) (jsToLower searchTerm)

/-- `filteredMessages` from the component: the search term is lowered once
and matched against the lowered fields of each message. -/
def filteredMessages (messages : List MessageSnippet) (searchTerm : String) :
    List MessageSnippet :=
  let term := jsToLower searchTerm
  messages.filter (fun m =>
    jsIncludes (jsToLower m.title) term ||
    jsIncludes (jsToLower m.category) term ||
    jsIncludes (jsToLower m.content) term)

theorem filteredMessages_eq_filter (C : List MessageSnippet) (t : String) :
    filteredMessages C t = C.filter (matchesTerm t) := rfl

theorem listIncl_nil (s : List Char) : listIncl [] s = true := by
  cases s <;> simp [listIncl, List.isPrefixOf]

theorem jsIncludes_empty (s : String) : jsIncludes s "" = true := by
  simpa [jsIncludes] using listIncl_nil s.data

theorem jsToLower_empty : jsToLower "" = "" := rfl

theorem matchesTerm_empty (m : MessageSnippet) : matchesTerm "" m = true := by
  simp [matchesTerm, jsToLower_empty, jsIncludes_empty]

/-- C1: `filter(C, t)` is a sub-sequence of `C` (order preserved, no
ranking), its members are exactly the members of `C` whose title, category
or content contains the term case-insensitively, and the empty term keeps
all of `C` unchanged. -/
theorem c1_filter_exact (C : List MessageSnippet) (t : String) :
    List.Sublist (filteredMessages C t) C ∧
    (∀ m, m ∈ filteredMessages C t ↔ m ∈ C ∧ matchesTerm t m = true) ∧
    filteredMessages C "" = C := by
  refine ⟨?_, ?_, ?_⟩
  · rw [filteredMessages_eq_filter]
    exact List.filter_sublist C
  · intro m
    rw [filteredMessages_eq_filter]
    exact List.mem_filter
  · rw [filteredMessages_eq_filter]
    exact List.filter_eq_self.mpr (fun m _ => matchesTerm_empty m)

/-- One step of the `groupedMessages` fold (the `forEach` body, lines
140-147): push the message onto its category's bucket, creating the bucket
at the end when the key is new.  A JavaScript object with string keys
enumerates in insertion order, so an association list is a faithful model. -/
def addToGroups (groups : List (String × List MessageSnippet)) (m : MessageSnippet) :
    List (String × List MessageSnippet) :=
  if groups.any (fun g => g.1 == m.category) then
    groups.map (fun g => if g.1 = m.category then (g.1, g.2 ++ [m]) else g)
  else
    groups ++ [(m.category, [m])]

/-- `groupedMessages` from the component: partition the filtered list by
exact category string, buckets in first-seen key order. -/
def groupedMessages (filtered : List MessageSnippet) :
    List (String × List MessageSnippet) :=
  filtered.foldl addToGroups []

theorem map_fst_update (gs : List (String × List MessageSnippet)) (m : MessageSnippet) :
    (gs.map (fun g => if g.1 = m.category then (g.1, g.2 ++ [m]) else g)).map Prod.fst =
      gs.map Prod.fst := by
  induction gs with
  | nil => rfl
  | cons g gs ih =>
    simp only [List.map_cons, ih, List.cons.injEq, and_true]
    split <;> rfl

theorem inv_addToGroups (gs : List (String × List MessageSnippet)) (m : MessageSnippet)
    (h1 : (gs.map Prod.fst).Nodup)
    (h2 : ∀ p ∈ gs, ∀ x ∈ p.2, x.category = p.1) :
    ((addToGroups gs m).map Prod.fst).Nodup ∧
      ∀ p ∈ addToGroups gs m, ∀ x ∈ p.2, x.category = p.1 := by
  unfold addToGroups
  by_cases hc : gs.any (fun g => g.1 == m.category) = true
  · rw [if_pos hc]
    refine ⟨by rw [map_fst_update]; exact h1, ?_⟩
    intro p hp x hx
    rcases List.mem_map.mp hp with ⟨g, hg, rfl⟩
    by_cases hcat : g.1 = m.category
    · simp only [if_pos hcat] at hx ⊢
      rcases List.mem_append.mp hx with h | h
      · exact h2 g hg x h
      · simp only [List.mem_singleton] at h
        subst h
        exact hcat.symm
    · simp only [if_neg hcat] at hx ⊢
      exact h2 g hg x hx
  · rw [if_neg hc]
    constructor
    · have hnot : m.category ∉ gs.map Prod.fst := by
        intro hmem
        rcases List.mem_map.mp hmem with ⟨g, hg, he⟩
        exact hc (List.any_eq_true.mpr ⟨g, hg, by simp [he]⟩)
      simp [List.nodup_append, h1, hnot, List.disjoint_singleton]
    · intro p hp x hx
      rcases List.mem_append.mp hp with h | h
      · exact h2 p h x hx
      · simp only [List.mem_singleton] at h
        subst h
        simp only [List.mem_singleton] at hx
        subst hx
        rfl

theorem memGroups_addToGroups (gs : List (String × List MessageSnippet))
    (m x : MessageSnippet) :
    (∃ p, p ∈ addToGroups gs m ∧ x ∈ p.2) ↔ (∃ p, p ∈ gs ∧ x ∈ p.2) ∨ x = m := by
  unfold addToGroups
  by_cases hc : gs.any (fun g => g.1 == m.category) = true
  · rw [if_pos hc]
    constructor
    · rintro ⟨p, hp, hx⟩
      rcases List.mem_map.mp hp with ⟨g, hg, rfl⟩
      by_cases hcat : g.1 = m.category
      · simp only [if_pos hcat] at hx
        rcases List.mem_append.mp hx with h | h
        · exact Or.inl ⟨g, hg, h⟩
        · simp only [List.mem_singleton] at h
          exact Or.inr h
      · simp only [if_neg hcat] at hx
        exact Or.inl ⟨g, hg, hx⟩
    · rintro (⟨g, hg, hx⟩ | rfl)
      · refine ⟨if g.1 = m.category then (g.1, g.2 ++ [m]) else g,
          List.mem_map.mpr ⟨g, hg, rfl⟩, ?_⟩
        split
        · exact List.mem_append.mpr (Or.inl hx)
        · exact hx
      · rcases List.any_eq_true.mp hc with ⟨g, hg, hfg⟩
        have hcat : g.1 = x.category := by simpa using hfg
        exact ⟨(g.1, g.2 ++ [x]), List.mem_map.mpr ⟨g, hg, by rw [if_pos hcat]⟩, by simp⟩
  · rw [if_neg hc]
    constructor
    · rintro ⟨p, hp, hx⟩
      rcases List.mem_append.mp hp with h | h
      · exact Or.inl ⟨p, h, hx⟩
      · simp only [List.mem_singleton] at h
        subst h
        simp only [List.mem_singleton] at hx
        exact Or.inr hx
    · rintro (⟨g, hg, hx⟩ | rfl)
      · exact ⟨g, List.mem_append.mpr (Or.inl hg), hx⟩
      · exact ⟨(x.category, [x]), List.mem_append.mpr (Or.inr (by simp)), by simp⟩

theorem inv_foldlGroups (L : List MessageSnippet) :
    ∀ gs, (gs.map Prod.fst).Nodup → (∀ p ∈ gs, ∀ x ∈ p.2, x.category = p.1) →
      ((L.foldl addToGroups gs).map Prod.fst).Nodup ∧
        ∀ p ∈ L.foldl addToGroups gs, ∀ x ∈ p.2, x.category = p.1 := by
  induction L with
  | nil => intro gs h1 h2; exact ⟨h1, h2⟩
  | cons m L ih =>
    intro gs h1 h2
    have h := inv_addToGroups gs m h1 h2
    simpa using ih (addToGroups gs m) h.1 h.2

theorem memGroups_foldl (L : List MessageSnippet) :
    ∀ gs x, (∃ p, p ∈ L.foldl addToGroups gs ∧ x ∈ p.2) ↔
      (∃ p, p ∈ gs ∧ x ∈ p.2) ∨ x ∈ L := by
  induction L with
  | nil => intro gs x; simp
  | cons m L ih =>
    intro gs x
    rw [List.foldl_cons, ih (addToGroups gs m) x, memGroups_addToGroups]
    rw [List.mem_cons]
    exact or_assoc

/-- C6: grouping the filtered list is an exact partition: the keys are
distinct, every bucket member's own category equals the bucket key, a
message is in some bucket exactly when it is in the filtered list, and a
message lies in at most one bucket. -/
theorem c6_group_partition (C : List MessageSnippet) (t : String) :
    ((groupedMessages (filteredMessages C t)).map Prod.fst).Nodup ∧
    (∀ p ∈ groupedMessages (filteredMessages C t), ∀ x ∈ p.2, x.category = p.1) ∧
    (∀ x, (∃ p, p ∈ groupedMessages (filteredMessages C t) ∧ x ∈ p.2) ↔
      x ∈ filteredMessages C t) ∧
    (∀ p q, p ∈ groupedMessages (filteredMessages C t) →
      q ∈ groupedMessages (filteredMessages C t) →
      ∀ x, x ∈ p.2 → x ∈ q.2 → p = q) := by
  have hinv := inv_foldlGroups (filteredMessages C t) [] (by simp) (by simp)
  refine ⟨hinv.1, hinv.2, ?_, ?_⟩
  · intro x
    have h := memGroups_foldl (filteredMessages C t) [] x
    simpa [groupedMessages] using h
  · intro p q hp hq x hxp hxq
    have hkey : p.1 = q.1 := by
      rw [← hinv.2 p hp x hxp, ← hinv.2 q hq x hxq]
    exact List.inj_on_of_nodup_map hinv.1 hp hq hkey

/-- Closed instance of `c6_group_partition` at a one-element collection,
discharging the membership hypotheses concretely. -/
theorem c6_group_partition_witness :
    ((⟨"1", "a", "t", "c"⟩ : MessageSnippet) ∈
      filteredMessages [⟨"1", "a", "t", "c"⟩] "") ∧
    (⟨"1", "a", "t", "c"⟩ : MessageSnippet).category = "a" :=
  ⟨((c6_group_partition [⟨"1", "a", "t", "c"⟩] "").2.2.1 ⟨"1", "a", "t", "c"⟩).mp
      ⟨("a", [⟨"1", "a", "t", "c"⟩]), by decide, by decide⟩,
    (c6_group_partition [⟨"1", "a", "t", "c"⟩] "").2.1
      ("a", [⟨"1", "a", "t", "c"⟩]) (by decide) ⟨"1", "a", "t", "c"⟩ (by decide)⟩

/-- Strict lexicographic comparison of character lists, as JavaScript
compares strings with `<` inside the default sort. -/
def lexLtChars : List Char → List Char → Bool
  | [], [] => false
  | [], _ :: _ => true
  | _ :: _, [] => false
  | a :: as, b :: bs => if a < b then true else if b < a then false else lexLtChars as bs

/-- Nonstrict string order derived from `lexLtChars` (the order the default
sort establishes: `s` may stay before `t` iff `t` is not strictly below `s`). -/
def jsStrLE (s t : String) : Bool :=
  !(lexLtChars t.data s.data)

theorem lexLtChars_irrefl : ∀ as, lexLtChars as as = false := by
  intro as
  induction as with
  | nil => rfl
  | cons a as ih => simp [lexLtChars, lt_irrefl, ih]

theorem lexLtChars_trans :
    ∀ as bs cs, lexLtChars as bs = true → lexLtChars bs cs = true →
      lexLtChars as cs = true := by
  intro as
  induction as with
  | nil =>
    intro bs cs h1 h2
    cases bs with
    | nil => exact absurd h1 (by simp [lexLtChars])
    | cons b bs =>
      cases cs with
      | nil => exact absurd h2 (by simp [lexLtChars])
      | cons c cs => simp [lexLtChars]
  | cons a as ih =>
    intro bs cs h1 h2
    cases bs with
    | nil => exact absurd h1 (by simp [lexLtChars])
    | cons b bs =>
      cases cs with
      | nil => exact absurd h2 (by simp [lexLtChars])
      | cons c cs =>
        simp only [lexLtChars] at h1 h2 ⊢
        by_cases hab : a < b
        · by_cases hbc : b < c
          · simp [lt_trans hab hbc]
          · rw [if_neg hbc] at h2
            by_cases hcb : c < b
            · rw [if_pos hcb] at h2
              exact absurd h2 (by simp)
            · rw [if_neg hcb] at h2
              have hbec : b = c := le_antisymm (not_lt.mp hcb) (not_lt.mp hbc)
              subst hbec
              simp [hab]
        · rw [if_neg hab] at h1
          by_cases hba : b < a
          · rw [if_pos hba] at h1
            exact absurd h1 (by simp)
          · rw [if_neg hba] at h1
            have haeb : a = b := le_antisymm (not_lt.mp hba) (not_lt.mp hab)
            subst haeb
            by_cases hac : a < c
            · simp [hac]
            · rw [if_neg hac] at h2 ⊢
              by_cases hca : c < a
              · rw [if_pos hca] at h2
                exact absurd h2 (by simp)
              · rw [if_neg hca] at h2 ⊢
                exact ih bs cs h1 h2

theorem lexLtChars_eq_of_not :
    ∀ as bs, lexLtChars as bs = false → lexLtChars bs as = false → as = bs := by
  intro as
  induction as with
  | nil =>
    intro bs h1 _
    cases bs with
    | nil => rfl
    | cons b bs => exact absurd h1 (by simp [lexLtChars])
  | cons a as ih =>
    intro bs h1 h2
    cases bs with
    | nil => exact absurd h2 (by simp [lexLtChars])
    | cons b bs =>
      simp only [lexLtChars] at h1 h2
      by_cases hab : a < b
      · rw [if_pos hab] at h1
        exact absurd h1 (by simp)
      · by_cases hba : b < a
        · rw [if_pos hba] at h2
          exact absurd h2 (by simp)
        · rw [if_neg hab, if_neg hba] at h1
          rw [if_neg hba, if_neg hab] at h2
          have haeb : a = b := le_antisymm (not_lt.mp hba) (not_lt.mp hab)
          rw [haeb, ih bs h1 h2]

theorem jsStrLE_total (s t : String) : jsStrLE s t = true ∨ jsStrLE t s = true := by
  unfold jsStrLE
  cases hts : lexLtChars t.data s.data with
  | false => exact Or.inl rfl
  | true =>
    right
    cases hst : lexLtChars s.data t.data with
    | false => rfl
    | true =>
      have h := lexLtChars_trans _ _ _ hst hts
      rw [lexLtChars_irrefl] at h
      exact absurd h (by simp)

theorem jsStrLE_trans (s t u : String) (h1 : jsStrLE s t = true)
    (h2 : jsStrLE t u = true) : jsStrLE s u = true := by
  unfold jsStrLE at h1 h2 ⊢
  rw [Bool.not_eq_true'] at h1 h2 ⊢
  cases hus : lexLtChars u.data s.data with
  | false => rfl
  | true =>
    exfalso
    cases hst : lexLtChars s.data t.data with
    | false =>
      have he := lexLtChars_eq_of_not _ _ hst h1
      rw [he] at hus
      rw [hus] at h2
      simp at h2
    | true =>
      have h := lexLtChars_trans _ _ _ hus hst
      rw [h] at h2
      simp at h2

/-- The text of the items array inside an entry, as `Array.prototype.join`
renders it: each object becomes `[object Object]`, separated by commas. -/
def itemsText : List MessageSnippet → String
  | [] => ""
  | [_] => "[object Object]"
  | _ :: s :: rest => "[object Object]," ++ itemsText (s :: rest)

/-- The string JavaScript builds for a `[category, items]` entry when the
default (comparator-less) `Array.prototype.sort` converts it for
comparison: the category, a comma, then the items array's own text. -/
def entryText (e : String × List MessageSnippet) : String :=
  e.1 ++ "," ++ itemsText e.2

/-- The order the default sort actually uses on entries. -/
def entryLE (a b : String × List MessageSnippet) : Prop :=
  jsStrLE (entryText a) (entryText b) = true

instance : DecidableRel entryLE := fun a b =>
  inferInstanceAs (Decidable (jsStrLE (entryText a) (entryText b) = true))

instance : IsTotal (String × List MessageSnippet) entryLE :=
  ⟨fun a b => jsStrLE_total (entryText a) (entryText b)⟩

instance : IsTrans (String × List MessageSnippet) entryLE :=
  ⟨fun a b c => jsStrLE_trans (entryText a) (entryText b) (entryText c)⟩

/-- The group list as displayed (line 197 of the component):
`Object.entries(groupedMessages).sort()`, i.e. the grouped entries sorted
by the default string comparison of each entry.  Modelled with a stable
insertion sort, as `Array.prototype.sort` is stable. -/
def sortedEntries (filtered : List MessageSnippet) :
    List (String × List MessageSnippet) :=
  List.insertionSort entryLE (groupedMessages filtered)

/-- C5 fails: with categories `"a"` and `"a!"`, the default sort compares
`"a!,[object Object]"` with `"a,[object Object]"` and puts `"a!"` first,
although `"a"` is the lexicographically smaller category. -/
theorem c5_counterexample :
    ¬ List.Pairwise (fun a b => jsStrLE a.1 b.1 = true)
      (sortedEntries (filteredMessages
        [⟨"1", "a", "t", "c"⟩, ⟨"2", "a!", "t", "c"⟩] "")) := by
  decide

/-- C5 amended: the displayed groups are in nondecreasing order of the
default-sort key `entryText` (category ++ "," ++ the items array's text),
which coincides with lexicographic category order only when that suffix
does not flip the comparison. -/
theorem c5_amended_sorted_by_entryText (filtered : List MessageSnippet) :
    List.Pairwise entryLE (sortedEntries filtered) :=
  List.sorted_insertionSort entryLE (groupedMessages filtered)

/-- The edit branch of `addOrUpdateSnippet` (line 115):
`prev.map(m => m.id === snippet.id ? snippet : m)`. -/
def updateSnippet (messages : List MessageSnippet) (snippet : MessageSnippet) :
    List MessageSnippet :=
  messages.map (fun m => if m.id = snippet.id then snippet else m)

/-- C7: `update` keeps length and order, replaces exactly the positions
whose id matches, leaves all other positions identical, and is a no-op
when no id matches. -/
theorem c7_update_frame (l : List MessageSnippet) (s : MessageSnippet) :
    (updateSnippet l s).length = l.length ∧
    (∀ i : Nat, (updateSnippet l s)[i]? =
      (l[i]?).map (fun m => if m.id = s.id then s else m)) ∧
    ((∀ m ∈ l, m.id ≠ s.id) → updateSnippet l s = l) := by
  refine ⟨List.length_map l _, fun i => List.getElem?_map _ l i, fun h => ?_⟩
  have he : ∀ m ∈ l, (if m.id = s.id then s else m) = id m := fun m hm => by
    rw [if_neg (h m hm)]
    rfl
  rw [updateSnippet, List.map_congr_left he, List.map_id]

/-- Closed instance of `c7_update_frame`: updating with an id that is
absent leaves the concrete one-element collection untouched. -/
theorem c7_update_frame_witness :
    updateSnippet [⟨"1", "a", "t", "c"⟩] ⟨"2", "x", "y", "z"⟩ =
      [⟨"1", "a", "t", "c"⟩] :=
  (c7_update_frame [⟨"1", "a", "t", "c"⟩] ⟨"2", "x", "y", "z"⟩).2.2 (by decide)

/-- Model of `String(cell || fallback)` at the import boundary: a missing
cell (JavaScript `undefined`) or an empty string is falsy and yields the
fallback; any other string passes through unchanged.  Cells are modelled
as optional strings. -/
def cellString (cell : Option String) (fallback : String) : String :=
  match cell with
  | none => fallback
  | some s => if s = "" then fallback else s

/-- Model of JavaScript `trim`: drop whitespace from both ends. -/
def jsTrim (s : String) : String :=
  ⟨((s.data.dropWhile Char.isWhitespace).reverse.dropWhile
      Char.isWhitespace).reverse⟩

/-- One imported row (lines 89-94): fallback substitution happens before
trimming, the fresh id is taken from the generator. -/
def rowToSnippet (newId : String) (row : List (Option String)) : MessageSnippet :=
  ⟨newId,
    jsTrim (cellString (row.getD 0 none) "Sem Categoria"),
    jsTrim (cellString (row.getD 1 none) "Sem Título"),
    jsTrim (cellString (row.getD 2 none) "")⟩

/-- The `.map` over retained rows, with one fresh id per row drawn from
the id generator in row order. -/
def buildSnippets (ids : Nat → String) : Nat → List (List (Option String)) →
    List MessageSnippet
  | _, [] => []
  | i, row :: rest => rowToSnippet (ids i) row :: buildSnippets ids (i + 1) rest

/-- `handleFileUpload` after the sheet has been read into a 2D cell array:
drop the header row, keep rows with at least 3 cells, build snippets, and
append them to the previous collection when at least one row survived. -/
def handleFileUpload (ids : Nat → String) (data : List (List (Option String)))
    (prev : List MessageSnippet) : List MessageSnippet :=
  let newSnippets :=
    buildSnippets ids 0 ((data.drop 1).filter (fun row => decide (3 ≤ row.length)))
  if 0 < newSnippets.length then prev ++ newSnippets else prev

theorem handleFileUpload_eq_append (ids : Nat → String)
    (data : List (List (Option String))) (prev : List MessageSnippet) :
    handleFileUpload ids data prev =
      prev ++ buildSnippets ids 0
        ((data.drop 1).filter (fun row => decide (3 ≤ row.length))) := by
  show (if 0 < (buildSnippets ids 0
          ((data.drop 1).filter (fun row => decide (3 ≤ row.length)))).length
        then prev ++ buildSnippets ids 0
          ((data.drop 1).filter (fun row => decide (3 ≤ row.length)))
        else prev) = _
  split
  · rfl
  · rename_i hlen
    have h0 : buildSnippets ids 0
        ((data.drop 1).filter (fun row => decide (3 ≤ row.length))) = [] :=
      List.length_eq_zero.mp (Nat.eq_zero_of_not_pos hlen)
    rw [h0, List.append_nil]

/-- C4: import drops the header row and every row with fewer than 3 cells,
appends one snippet per retained row (category/title/content from cells
0/1/2 with fallback-then-trim), and on the spec's example file yields the
`("Sales", "Greeting", "Hello!")` snippet followed by the fallback
snippet, appended to the existing collection. -/
theorem c4_import (ids : Nat → String) (prev : List MessageSnippet)
    (hdr : List (Option String)) :
    (∀ data, handleFileUpload ids data prev =
      prev ++ buildSnippets ids 0
        ((data.drop 1).filter (fun row => decide (3 ≤ row.length)))) ∧
    handleFileUpload ids
        [hdr, [some "Sales", some "Greeting", some "Hello!"],
          [some "", some "", some ""]] prev =
      prev ++ [⟨ids 0, "Sales", "Greeting", "Hello!"⟩,
        ⟨ids 1, "Sem Categoria", "Sem Título", ""⟩] := by
  refine ⟨fun data => handleFileUpload_eq_append ids data prev, ?_⟩
  rw [handleFileUpload_eq_append]
  have hf : ([[some "Sales", some "Greeting", some "Hello!"],
      [some "", some "", some ""]] :
        List (List (Option String))).filter (fun row => decide (3 ≤ row.length)) =
      [[some "Sales", some "Greeting", some "Hello!"],
        [some "", some "", some ""]] := by decide
  rw [List.drop_one, List.tail_cons, hf]
  show prev ++ [rowToSnippet (ids 0) _, rowToSnippet (ids 1) _] = _
  have h1 : rowToSnippet (ids 0) [some "Sales", some "Greeting", some "Hello!"] =
      ⟨ids 0, "Sales", "Greeting", "Hello!"⟩ := by
    unfold rowToSnippet
    simp only [MessageSnippet.mk.injEq]
    exact ⟨trivial, by decide, by decide, by decide⟩
  have h2 : rowToSnippet (ids 1) [some "", some "", some ""] =
      ⟨ids 1, "Sem Categoria", "Sem Título", ""⟩ := by
    unfold rowToSnippet
    simp only [MessageSnippet.mk.injEq]
    exact ⟨trivial, by decide, by decide, by decide⟩
  rw [h1, h2]

/-- C10: when a retained row's category (resp. title) cell holds a
non-empty but all-whitespace string, the fallback is not substituted (the
cell is truthy) and trimming then empties it, so the imported snippet's
category (resp. title) is the empty string, not the fallback label. -/
theorem c10_whitespace_cell (newId : String) (row : List (Option String))
    (s : String) :
    (row.getD 0 none = some s → s ≠ "" → jsTrim s = "" →
      (rowToSnippet newId row).category = "") ∧
    (row.getD 1 none = some s → s ≠ "" → jsTrim s = "" →
      (rowToSnippet newId row).title = "") := by
  constructor
  · intro h0 hne hws
    show jsTrim (cellString (row.getD 0 none) "Sem Categoria") = ""
    rw [h0]
    show jsTrim (if s = "" then "Sem Categoria" else s) = ""
    rw [if_neg hne, hws]
  · intro h1 hne hws
    show jsTrim (cellString (row.getD 1 none) "Sem Título") = ""
    rw [h1]
    show jsTrim (if s = "" then "Sem Título" else s) = ""
    rw [if_neg hne, hws]

/-- Closed instance of `c10_whitespace_cell`: the row `[" ", " ", "x"]`
imports with empty category and empty title. -/
theorem c10_whitespace_cell_witness :
    (rowToSnippet "i" [some " ", some " ", some "x"]).category = "" ∧
    (rowToSnippet "i" [some " ", some " ", some "x"]).title = "" :=
  ⟨(c10_whitespace_cell "i" [some " ", some " ", some "x"] " ").1
      (by decide) (by decide) (by decide),
    (c10_whitespace_cell "i" [some " ", some " ", some "x"] " ").2
      (by decide) (by decide) (by decide)⟩

/-- Lower-case hex digit for `n < 16`, as `JSON.stringify` writes control
characters. -/
def hexDigitChar (n : Nat) : Char :=
  if n < 10 then Char.ofNat (48 + n) else Char.ofNat (87 + n)

/-- How `JSON.stringify` escapes one character inside a string literal:
quote and backslash get a backslash, the five short control escapes are
used where they exist, any other control character becomes `\u00XY`, and
everything else is copied verbatim. -/
def escChar (c : Char) : List Char :=
  if c = '"' then ['\\', '"']
  else if c = '\\' then ['\\', '\\']
  else if c = '\x08' then ['\\', 'b']
  else if c = '\x09' then ['\\', 't']
  else if c = '\x0a' then ['\\', 'n']
  else if c = '\x0c' then ['\\', 'f']
  else if c = '\x0d' then ['\\', 'r']
  else if c.toNat < 32 then
    ['\\', 'u', '0', '0', hexDigitChar (c.toNat / 16), hexDigitChar (c.toNat % 16)]
  else [c]

def escList : List Char → List Char
  | [] => []
  | c :: cs => escChar c ++ escList cs

/-- A JSON string literal: quote, escaped body, quote. -/
def qstr (s : String) : List Char :=
  '"' :: (escList s.data ++ ['"'])

/-- The characters `JSON.stringify` produces for one snippet object, keys
in the insertion order of the object literal in the source. -/
def snippetChars (s : MessageSnippet) : List Char :=
  "\x7b\"id\":".data ++ qstr s.id ++
  ",\"category\":".data ++ qstr s.category ++
  ",\"title\":".data ++ qstr s.title ++
  ",\"content\":".data ++ qstr s.content ++ "\x7d".data

/-- Elements of the serialized array after the opening bracket: objects
separated by commas, closed by the bracket. -/
def msgsTail : List MessageSnippet → List Char
  | [] => [']']
  | [s] => snippetChars s ++ [']']
  | s :: s2 :: rest => snippetChars s ++ ',' :: msgsTail (s2 :: rest)

/-- `JSON.stringify(messages)`. -/
def stringifyMessages (l : List MessageSnippet) : String :=
  ⟨'[' :: msgsTail l⟩

/-- Value of one hex digit, upper or lower case. -/
def hexVal (c : Char) : Option Nat :=
  if 48 ≤ c.toNat ∧ c.toNat ≤ 57 then some (c.toNat - 48)
  else if 97 ≤ c.toNat ∧ c.toNat ≤ 102 then some (c.toNat - 87)
  else if 65 ≤ c.toNat ∧ c.toNat ≤ 70 then some (c.toNat - 55)
  else none

def withChar (c : Char) (r : Option (List Char × List Char)) :
    Option (List Char × List Char) :=
  r.map (fun p => (c :: p.1, p.2))

/-- Parse the body of a JSON string literal (the opening quote already
consumed) up to and including the closing quote, un-escaping as
`JSON.parse` does; returns the decoded characters and the rest of the
input. -/
def parseJString : List Char → Option (List Char × List Char)
  | [] => none
  | c :: cs =>
    if c = '"' then some ([], cs)
    else if c = '\\' then
      match cs with
      | [] => none
      | e :: cs2 =>
        if e = '"' then withChar '"' (parseJString cs2)
        else if e = '\\' then withChar '\\' (parseJString cs2)
        else if e = 'b' then withChar '\x08' (parseJString cs2)
        else if e = 't' then withChar '\x09' (parseJString cs2)
        else if e = 'n' then withChar '\x0a' (parseJString cs2)
        else if e = 'f' then withChar '\x0c' (parseJString cs2)
        else if e = 'r' then withChar '\x0d' (parseJString cs2)
        else if e = 'u' then
          match cs2 with
          | h1 :: h2 :: h3 :: h4 :: cs3 =>
            match hexVal h1, hexVal h2, hexVal h3, hexVal h4 with
            | some a, some b, some x, some y =>
              let n := ((a * 16 + b) * 16 + x) * 16 + y
              if n < 55296 then withChar (Char.ofNat n) (parseJString cs3)
              else none
            | _, _, _, _ => none
          | _ => none
        else none
    else withChar c (parseJString cs)

/-- Parse a whole JSON string literal including its opening quote. -/
def parseQStr : List Char → Option (List Char × List Char)
  | '"' :: cs => parseJString cs
  | _ => none

/-- Consume an expected literal prefix. -/
def dropLit : List Char → List Char → Option (List Char)
  | [], cs => some cs
  | _ :: _, [] => none
  | l :: ls, c :: cs => if c = l then dropLit ls cs else none

/-- Parse one serialized snippet object in the exact shape the store
writes. -/
def parseSnippetObj (cs : List Char) : Option (MessageSnippet × List Char) :=
  match dropLit ("\x7b\"id\":").data cs with
  | none => none
  | some cs1 =>
    match parseQStr cs1 with
    | none => none
    | some (idC, cs2) =>
      match dropLit (",\"category\":").data cs2 with
      | none => none
      | some cs3 =>
        match parseQStr cs3 with
        | none => none
        | some (catC, cs4) =>
          match dropLit (",\"title\":").data cs4 with
          | none => none
          | some cs5 =>
            match parseQStr cs5 with
            | none => none
            | some (titleC, cs6) =>
              match dropLit (",\"content\":").data cs6 with
              | none => none
              | some cs7 =>
                match parseQStr cs7 with
                | none => none
                | some (contC, cs8) =>
                  match dropLit ("\x7d").data cs8 with
                  | none => none
                  | some cs9 => some (⟨⟨idC⟩, ⟨catC⟩, ⟨titleC⟩, ⟨contC⟩⟩, cs9)

/-- Parse the comma-separated objects after the opening bracket, up to and
including the closing bracket; fuelled by the input length. -/
def parseItems : Nat → List Char → Option (List MessageSnippet × List Char)
  | 0, _ => none
  | fuel + 1, cs =>
    match parseSnippetObj cs with
    | none => none
    | some (s, rest) =>
      match rest with
      | ',' :: rest2 =>
        match parseItems fuel rest2 with
        | none => none
        | some (l, r) => some (s :: l, r)
      | ']' :: rest2 => some ([s], rest2)
      | _ => none

/-- `JSON.parse` restricted to the document shape the store ever writes:
an array of snippet objects, with nothing trailing. -/
def parseMessages (str : String) : Option (List MessageSnippet) :=
  match str.data with
  | '[' :: rest =>
    if rest = [']'] then some []
    else
      match parseItems (rest.length + 1) rest with
      | some (l, []) => some l
      | _ => none
  | _ => none

/-- The application state the persistence claims are about: the in-memory
collection and the `quickreply_messages` slot (`none` = slot absent). -/
structure AppState where
  messages : List MessageSnippet
  storage : Option String
deriving DecidableEq

/-- The load effect (lines 33-42): state starts empty; set it from storage
only when the slot exists and its content parses; a parse failure is
caught (and logged) and leaves the empty collection. -/
def loadMessages (storage : Option String) : List MessageSnippet :=
  match storage with
  | none => []
  | some s =>
    match parseMessages s with
    | none => []
    | some l => l

/-- The save effect (lines 45-47): after any state update it overwrites
the slot with the serialized current collection. -/
def runSaveEffect (st : AppState) : AppState :=
  ⟨st.messages, some (stringifyMessages st.messages)⟩

/-- The confirmed clear handler body (lines 340-345): `setMessages([])`
then `localStorage.removeItem`. -/
def clearClick (_ : AppState) : AppState :=
  ⟨[], none⟩

/-- A confirmed clear as the program actually completes it: the click
handler runs, then React re-renders and the save effect fires on the
updated (empty) collection. -/
def clearConfirmed (st : AppState) : AppState :=
  runSaveEffect (clearClick st)

theorem hexVal_hexDigitChar (n : Nat) (h : n < 16) :
    hexVal (hexDigitChar n) = some n := by
  have hall : ∀ m ∈ List.range 16, hexVal (hexDigitChar m) = some m := by decide
  exact hall n (List.mem_range.mpr h)

theorem pjsQuote (tail : List Char) : parseJString ('"' :: tail) = some ([], tail) := by
  rw [parseJString.eq_def]
  simp

theorem pjsEscQuote (tail : List Char) :
    parseJString ('\\' :: '"' :: tail) = withChar '"' (parseJString tail) := by
  rw [parseJString.eq_def]
  simp

theorem pjsEscBslash (tail : List Char) :
    parseJString ('\\' :: '\\' :: tail) = withChar '\\' (parseJString tail) := by
  rw [parseJString.eq_def]
  simp

theorem pjsEscB (tail : List Char) :
    parseJString ('\\' :: 'b' :: tail) = withChar '\x08' (parseJString tail) := by
  rw [parseJString.eq_def]
  simp

theorem pjsEscT (tail : List Char) :
    parseJString ('\\' :: 't' :: tail) = withChar '\x09' (parseJString tail) := by
  rw [parseJString.eq_def]
  simp

theorem pjsEscN (tail : List Char) :
    parseJString ('\\' :: 'n' :: tail) = withChar '\x0a' (parseJString tail) := by
  rw [parseJString.eq_def]
  simp

theorem pjsEscF (tail : List Char) :
    parseJString ('\\' :: 'f' :: tail) = withChar '\x0c' (parseJString tail) := by
  rw [parseJString.eq_def]
  simp

theorem pjsEscR (tail : List Char) :
    parseJString ('\\' :: 'r' :: tail) = withChar '\x0d' (parseJString tail) := by
  rw [parseJString.eq_def]
  simp

theorem pjsPlain (a : Char) (tail : List Char) (h1 : ¬ a = '"') (h2 : ¬ a = '\\') :
    parseJString (a :: tail) = withChar a (parseJString tail) := by
  rw [parseJString.eq_def]
  simp [h1, h2]

theorem pjsEscU (c : Char) (h : c.toNat < 32) (tail : List Char) :
    parseJString ('\\' :: 'u' :: '0' :: '0' ::
        hexDigitChar (c.toNat / 16) :: hexDigitChar (c.toNat % 16) :: tail) =
      withChar c (parseJString tail) := by
  have hd : c.toNat / 16 < 16 := by omega
  have hm : c.toNat % 16 < 16 := by omega
  rw [parseJString.eq_def]
  simp only [reduceIte, reduceCtorEq]
  rw [hexVal_hexDigitChar _ hd, hexVal_hexDigitChar _ hm]
  have hv0 : hexVal '0' = some 0 := rfl
  rw [hv0]
  have hn : ((0 * 16 + 0) * 16 + c.toNat / 16) * 16 + c.toNat % 16 = c.toNat := by
    omega
  simp only [hn]
  rw [if_pos (by omega : c.toNat < 55296), Char.ofNat_toNat]
  simp

theorem parseJString_escList (s : List Char) :
    ∀ rest, parseJString (escList s ++ '"' :: rest) = some (s, rest) := by
  induction s with
  | nil =>
    intro rest
    simpa using pjsQuote rest
  | cons c cs ih =>
    intro rest
    rw [escList, List.append_assoc]
    unfold escChar
    by_cases h1 : c = '"'
    · rw [if_pos h1]
      subst h1
      show parseJString ('\\' :: '"' :: (escList cs ++ '"' :: rest)) = _
      rw [pjsEscQuote, ih rest]
      rfl
    · rw [if_neg h1]
      by_cases h2 : c = '\\'
      · rw [if_pos h2]
        subst h2
        show parseJString ('\\' :: '\\' :: (escList cs ++ '"' :: rest)) = _
        rw [pjsEscBslash, ih rest]
        rfl
      · rw [if_neg h2]
        by_cases h3 : c = '\x08'
        · rw [if_pos h3]
          subst h3
          show parseJString ('\\' :: 'b' :: (escList cs ++ '"' :: rest)) = _
          rw [pjsEscB, ih rest]
          rfl
        · rw [if_neg h3]
          by_cases h4 : c = '\x09'
          · rw [if_pos h4]
            subst h4
            show parseJString ('\\' :: 't' :: (escList cs ++ '"' :: rest)) = _
            rw [pjsEscT, ih rest]
            rfl
          · rw [if_neg h4]
            by_cases h5 : c = '\x0a'
            · rw [if_pos h5]
              subst h5
              show parseJString ('\\' :: 'n' :: (escList cs ++ '"' :: rest)) = _
              rw [pjsEscN, ih rest]
              rfl
            · rw [if_neg h5]
              by_cases h6 : c = '\x0c'
              · rw [if_pos h6]
                subst h6
                show parseJString ('\\' :: 'f' :: (escList cs ++ '"' :: rest)) = _
                rw [pjsEscF, ih rest]
                rfl
              · rw [if_neg h6]
                by_cases h7 : c = '\x0d'
                · rw [if_pos h7]
                  subst h7
                  show parseJString ('\\' :: 'r' :: (escList cs ++ '"' :: rest)) = _
                  rw [pjsEscR, ih rest]
                  rfl
                · rw [if_neg h7]
                  by_cases h8 : c.toNat < 32
                  · rw [if_pos h8]
                    show parseJString ('\\' :: 'u' :: '0' :: '0' ::
                        hexDigitChar (c.toNat / 16) :: hexDigitChar (c.toNat % 16) ::
                        (escList cs ++ '"' :: rest)) = _
                    rw [pjsEscU c h8, ih rest]
                    rfl
                  · rw [if_neg h8]
                    show parseJString (c :: (escList cs ++ '"' :: rest)) = _
                    rw [pjsPlain c _ h1 h2, ih rest]
                    rfl

theorem dropLit_append (l : List Char) : ∀ cs, dropLit l (l ++ cs) = some cs := by
  induction l with
  | nil => intro cs; rfl
  | cons a l ih =>
    intro cs
    show dropLit (a :: l) (a :: (l ++ cs)) = some cs
    rw [dropLit.eq_def]
    simp [ih]

theorem parseQStr_qstr (s : String) (rest : List Char) :
    parseQStr (qstr s ++ rest) = some (s.data, rest) := by
  show parseQStr ('"' :: ((escList s.data ++ ['"']) ++ rest)) = _
  rw [List.append_assoc]
  show parseJString (escList s.data ++ ('"' :: rest)) = _
  exact parseJString_escList s.data rest

theorem parseSnippetObj_snippetChars (s : MessageSnippet) (rest : List Char) :
    parseSnippetObj (snippetChars s ++ rest) = some (s, rest) := by
  unfold parseSnippetObj snippetChars
  simp only [List.append_assoc, dropLit_append, parseQStr_qstr]

theorem length_msgsTail (l : List MessageSnippet) :
    l.length ≤ (msgsTail l).length := by
  induction l with
  | nil => simp [msgsTail]
  | cons s t ih =>
    cases t with
    | nil =>
      simp only [msgsTail, List.length_append, List.length_cons, List.length_nil]
      omega
    | cons s2 t2 =>
      simp only [msgsTail, List.length_append, List.length_cons] at ih ⊢
      omega

theorem snippetChars_length_pos (s : MessageSnippet) :
    1 ≤ (snippetChars s).length := by
  unfold snippetChars
  simp [List.length_append]

theorem msgsTail_ne_bracket (s : MessageSnippet) (t : List MessageSnippet) :
    msgsTail (s :: t) ≠ [']'] := by
  have hpos := snippetChars_length_pos s
  cases t with
  | nil =>
    intro heq
    have := congrArg List.length heq
    simp only [msgsTail, List.length_append, List.length_cons, List.length_nil] at this
    omega
  | cons s2 t2 =>
    intro heq
    have := congrArg List.length heq
    simp only [msgsTail, List.length_append, List.length_cons, List.length_nil] at this
    omega

theorem parseItems_msgsTail (l : List MessageSnippet) :
    ∀ fuel : Nat, l ≠ [] → l.length ≤ fuel →
      parseItems fuel (msgsTail l) = some (l, []) := by
  induction l with
  | nil => intro fuel h _; exact absurd rfl h
  | cons s t ih =>
    intro fuel _ hlen
    cases fuel with
    | zero => simp at hlen
    | succ fuel =>
      cases t with
      | nil =>
        show parseItems (fuel + 1) (snippetChars s ++ [']']) = some ([s], [])
        rw [parseItems]
        rw [parseSnippetObj_snippetChars]
        rfl
      | cons s2 t2 =>
        show parseItems (fuel + 1)
            (snippetChars s ++ ',' :: msgsTail (s2 :: t2)) = some (s :: s2 :: t2, [])
        rw [parseItems]
        rw [parseSnippetObj_snippetChars]
        show (match parseItems fuel (msgsTail (s2 :: t2)) with
          | none => none
          | some (l, r) => some (s :: l, r)) = some (s :: s2 :: t2, [])
        have hlen2 : (s2 :: t2).length ≤ fuel := by
          simp only [List.length_cons] at hlen ⊢
          omega
        rw [ih fuel (by simp) hlen2]

theorem parseMessages_stringify (l : List MessageSnippet) :
    parseMessages (stringifyMessages l) = some l := by
  cases l with
  | nil => rfl
  | cons s t =>
    show parseMessages ⟨'[' :: msgsTail (s :: t)⟩ = some (s :: t)
    rw [parseMessages.eq_def]
    show (if msgsTail (s :: t) = [']'] then some [] else
        match parseItems ((msgsTail (s :: t)).length + 1) (msgsTail (s :: t)) with
        | some (l, []) => some l
        | _ => none) = some (s :: t)
    rw [if_neg (msgsTail_ne_bracket s t)]
    have hlen : (s :: t).length ≤ (msgsTail (s :: t)).length + 1 :=
      Nat.le_succ_of_le (length_msgsTail (s :: t))
    rw [parseItems_msgsTail (s :: t) _ (by simp) hlen]

/-- C2: saving any collection (from any prior slot state) and then loading
yields the same collection back, the empty collection included. -/
theorem c2_save_load_roundtrip (C : List MessageSnippet) (prior : Option String) :
    loadMessages (runSaveEffect ⟨C, prior⟩).storage = C := by
  show (match parseMessages (stringifyMessages C) with
    | none => []
    | some l => l) = C
  rw [parseMessages_stringify]

/-- C3 fails as stated: after a confirmed clear completes, the save effect
that follows the state update re-creates the slot with the serialized
empty collection, so the slot is present, not absent. -/
theorem c3_counterexample :
    (clearConfirmed ⟨[⟨"1", "a", "t", "c"⟩], some "prior"⟩).storage = some "[]" ∧
    (clearConfirmed ⟨[⟨"1", "a", "t", "c"⟩], some "prior"⟩).storage ≠ none := by
  constructor
  · rfl
  · intro h
    simp [clearConfirmed, runSaveEffect] at h

/-- C3 amended: the click handler itself removes the slot, and a
subsequent load returns the empty collection; but the save effect that
runs after the state update leaves the slot present again, holding the
serialized empty collection. -/
theorem c3_amended_clear (st : AppState) :
    (clearClick st).storage = none ∧
    (clearConfirmed st).messages = [] ∧
    (clearConfirmed st).storage = some (stringifyMessages []) ∧
    loadMessages (clearConfirmed st).storage = [] := by
  refine ⟨rfl, rfl, rfl, ?_⟩
  show (match parseMessages (stringifyMessages []) with
    | none => []
    | some l => l) = []
  rw [parseMessages_stringify]

/-- C8: loading from an absent slot yields the empty collection, and any
stored string that fails to parse also yields the empty collection (the
failure is caught; startup always completes with a collection). -/
theorem c8_load_failure (s : String) :
    loadMessages none = [] ∧
    (parseMessages s = none → loadMessages (some s) = []) := by
  refine ⟨rfl, fun h => ?_⟩
  show (match parseMessages s with
    | none => []
    | some l => l) = []
  rw [h]

/-- Closed instance of `c8_load_failure`: the unparsable slot content
`"garbage"` loads as the empty collection. -/
theorem c8_load_failure_witness : loadMessages (some "garbage") = [] :=
  (c8_load_failure "garbage").2 (by decide)

/-- State of the copy-feedback mechanism: the `copyFeedback` value and the
expiry times of every pending `setTimeout` callback.  Each scheduled
callback is `() => setCopyFeedback(null)` — it clears the feedback
unconditionally, it is not keyed to the copy that scheduled it. -/
structure CopyState where
  feedback : Option String
  timers : List Nat
deriving DecidableEq

def initCopyState : CopyState := ⟨none, []⟩

/-- Fire every pending timeout whose expiry is at or before `t`: each one
sets the feedback to `none`. -/
def fireDue (t : Nat) (s : CopyState) : CopyState :=
  ⟨if s.timers.any (fun e => decide (e ≤ t)) then none else s.feedback,
    s.timers.filter (fun e => !(decide (e ≤ t)))⟩

/-- `handleCopy` (lines 64-72) after a successful clipboard write at time
`t`: timers already due have fired, the feedback is overwritten with this
snippet's id, and a fresh 1000 ms timeout is scheduled. -/
def handleCopy (t : Nat) (id : String) (s : CopyState) : CopyState :=
  let s1 := fireDue t s
  ⟨some id, s1.timers ++ [t + 1000]⟩

/-- Run a time-ordered sequence of successful copies. -/
def runCopies (s : CopyState) : List (Nat × String) → CopyState
  | [] => s
  | e :: rest => runCopies (handleCopy e.1 e.2 s) rest

/-- What the feedback shows when observed at time `t` (all due timers have
fired by then). -/
def observeAt (t : Nat) (s : CopyState) : Option String :=
  (fireDue t s).feedback

/-- C9 fails in its last part: copy `"A"` at 0 ms, copy `"B"` at 500 ms;
at 999 ms the feedback still shows `"B"`, but at 1000 ms the timer
scheduled by the first copy fires and clears it — 1000 ms is strictly
before 500 + 1000, so the acknowledgment for the last-copied item does
not survive its own fixed duration. -/
theorem c9_counterexample :
    observeAt 999 (runCopies initCopyState [(0, "A"), (500, "B")]) = some "B" ∧
    observeAt 1000 (runCopies initCopyState [(0, "A"), (500, "B")]) = none ∧
    1000 < 500 + 1000 := by
  decide

/-- C9 amended: a single copy's acknowledgment is visible for exactly its
fixed duration and then clears with no further action; a second copy
overwrites the feedback key (last-writer-wins, nothing is queued); but the
acknowledgment for the last-copied item clears at the earliest pending
timer expiry — possibly before its own duration has elapsed — because the
stale timeout callback clears the feedback unconditionally. -/
theorem c9_amended_feedback (id1 id2 : String) (t1 t2 : Nat)
    (h12 : t1 ≤ t2) (h2lt : t2 < t1 + 1000) :
    (∀ t t', t + 1000 ≤ t' → observeAt t' (handleCopy t id1 initCopyState) = none) ∧
    (∀ t t', t ≤ t' → t' < t + 1000 →
      observeAt t' (handleCopy t id1 initCopyState) = some id1) ∧
    (∀ s t, (handleCopy t id2 s).feedback = some id2) ∧
    (∀ t', t2 ≤ t' → t' < t1 + 1000 →
      observeAt t' (runCopies initCopyState [(t1, id1), (t2, id2)]) = some id2) ∧
    (∀ t', t1 + 1000 ≤ t' →
      observeAt t' (runCopies initCopyState [(t1, id1), (t2, id2)]) = none) := by
  have hrun : runCopies initCopyState [(t1, id1), (t2, id2)] =
      ⟨some id2, [t1 + 1000, t2 + 1000]⟩ := by
    show handleCopy t2 id2 (handleCopy t1 id1 initCopyState) = _
    have h1 : handleCopy t1 id1 initCopyState = ⟨some id1, [t1 + 1000]⟩ := rfl
    rw [h1]
    unfold handleCopy fireDue
    have hd : decide (t1 + 1000 ≤ t2) = false := decide_eq_false (by omega)
    simp [hd]
  refine ⟨?_, ?_, ?_, ?_, ?_⟩
  · intro t t' h
    have h1 : handleCopy t id1 initCopyState = ⟨some id1, [t + 1000]⟩ := rfl
    rw [h1]
    unfold observeAt fireDue
    have hd : decide (t + 1000 ≤ t') = true := decide_eq_true h
    simp [hd]
  · intro t t' _ hlt
    have h1 : handleCopy t id1 initCopyState = ⟨some id1, [t + 1000]⟩ := rfl
    rw [h1]
    unfold observeAt fireDue
    have hd : decide (t + 1000 ≤ t') = false := decide_eq_false (by omega)
    simp [hd]
  · intro s t
    rfl
  · intro t' _ hlt
    rw [observeAt, hrun]
    unfold fireDue
    have hd1 : decide (t1 + 1000 ≤ t') = false := decide_eq_false (by omega)
    have hd2 : decide (t2 + 1000 ≤ t') = false := decide_eq_false (by omega)
    simp [hd1, hd2]
  · intro t' h
    rw [observeAt, hrun]
    unfold fireDue
    have hd1 : decide (t1 + 1000 ≤ t') = true := decide_eq_true h
    simp [hd1]

/-- Closed instance of `c9_amended_feedback` with copies at 0 ms and
500 ms, observed at 700, 1200, 30 and 1500 ms. -/
theorem c9_amended_feedback_witness :
    observeAt 700 (runCopies initCopyState [(0, "A"), (500, "B")]) = some "B" ∧
    observeAt 1200 (runCopies initCopyState [(0, "A"), (500, "B")]) = none ∧
    observeAt 30 (handleCopy 20 "A" initCopyState) = some "A" ∧
    observeAt 1500 (handleCopy 20 "A" initCopyState) = none :=
  ⟨(c9_amended_feedback "A" "B" 0 500 (by decide) (by decide)).2.2.2.1 700
      (by decide) (by decide),
    (c9_amended_feedback "A" "B" 0 500 (by decide) (by decide)).2.2.2.2 1200
      (by decide),
    (c9_amended_feedback "A" "B" 0 500 (by decide) (by decide)).2.1 20 30
      (by decide) (by decide),
    (c9_amended_feedback "A" "B" 0 500 (by decide) (by decide)).1 20 1500
      (by decide)⟩

end QuickReply
